import Mathlib

/-!
Verification of the configuration-bootstrap and firewall-status code of the
`wtf` repository (package `cfg` plus `modules/security/firewall.go`).

The Go code is shallowly embedded:

* Paths are Lean `String`s; the byte-level checks of the Go code
  (`path[0] != '~'`, `path[1] != '/' && path[1] != '\\'`) are modelled on the
  character list `String.data`, which agrees with the byte-level behaviour for
  the checks performed (the compared characters are one-byte ASCII, and the
  first byte of a multi-byte UTF-8 character can never equal them).
* `filepath.Join` / `filepath.Clean` (Go standard library, Unix rules with
  separator `/`) are modelled by `joinPath2` / `cleanPath` below.
* The filesystem is a finite association list from absolute paths (lists of
  path segments, the form in which a kernel resolves a path string) to nodes
  (directories, or files carrying their content and permission mode).
  Lookup takes the first matching entry.  `os.Stat` success is modelled by a
  `some` lookup, `os.IsNotExist` by a `none` lookup.
* The OS user lookup (`os/user.Current`) is a parameter `currentUser :
  Option String` (the `HomeDir` field of the current user, or `none` when the
  lookup itself fails), and `runtime.GOOS` / external command output are
  plain `String` parameters, so every function stays executable.
-/

namespace Wtf

/-! ### Character-level path helpers (model of Go `path/filepath`, Unix) -/

/-- Split a character list on the separator `/` (keeping empty segments),
the primitive underlying `filepath.Clean`. -/
def splitOnSlash : List Char → List (List Char)
  | [] => [[]]
  | c :: rest =>
    if c = '/' then [] :: splitOnSlash rest
    else
      match splitOnSlash rest with
      | [] => [[c]]
      | s :: ss => (c :: s) :: ss

/-- One step of `filepath.Clean`'s element processing: skip empty and `.`
segments, let `..` pop the last real segment (never popping past the root of
a rooted path, and never popping a leading `..` of a relative path). -/
def cleanStep (rooted : Bool) (stack : List (List Char)) (seg : List Char) : List (List Char) :=
  if seg = [] ∨ seg = ['.'] then stack
  else if seg = ['.', '.'] then
    match stack with
    | [] => if rooted then [] else [['.', '.']]
    | top :: rest => if top = ['.', '.'] then ['.', '.'] :: top :: rest else rest
  else seg :: stack

/-- Join segments back with `/` separators. -/
def intercalateSlash : List (List Char) → List Char
  | [] => []
  | [s] => s
  | s :: t :: rest => s ++ '/' :: intercalateSlash (t :: rest)

/-- Model of Go `filepath.Clean` (Unix) on a character list: the empty path
becomes `.`, otherwise the segments are normalised and rejoined; a rooted
path keeps its leading `/`, and a non-rooted path that cleans to nothing
becomes `.`. -/
def cleanPathL (cs : List Char) : List Char :=
  match cs with
  | [] => ['.']
  | c :: rest =>
    let rooted : Bool := c = '/'
    let segs := List.foldl (cleanStep rooted) [] (splitOnSlash (c :: rest))
    let body := intercalateSlash segs.reverse
    if rooted then '/' :: body
    else if body = [] then ['.'] else body

/-- Model of Go `filepath.Clean` (Unix) on strings. -/
def cleanPath (s : String) : String :=
  String.mk (cleanPathL s.data)

/-- Model of Go `filepath.Join(a, b)` (Unix): the elements are joined with
`/` starting from the first non-empty one and the result is `Clean`ed; if all
elements are empty the result is empty. -/
def joinPath2 (a b : String) : String :=
  if a ≠ "" then cleanPath (a ++ "/" ++ b)
  else if b ≠ "" then cleanPath b
  else ""

/-- Absolute-path segments of a path string: the non-empty `/`-separated
segments, the form in which the filesystem model is keyed. -/
def pathSegs (s : String) : List String :=
  ((splitOnSlash s.data).filter (fun seg => !seg.isEmpty)).map String.mk

/-! ### The `cfg` package: constants and the Path Resolver -/

/-- `XdgConfigDir` constant of the source. -/
def XdgConfigDir : String := "~/.config/"

/-- `WtfConfigDirV1` constant of the source (the legacy directory). -/
def WtfConfigDirV1 : String := "~/.wtf/"

/-- `WtfConfigDirV2` constant of the source (the current directory). -/
def WtfConfigDirV2 : String := "~/.config/wtf/"

/-- `WtfConfigFile` constant of the source. -/
def WtfConfigFile : String := "config.yml"

/-- `WtfSecretsFile` constant of the source. -/
def WtfSecretsFile : String := "secrets.yml"

/-- The error taxonomy of the `cfg` package's fallible path functions:
`invalidPathFormat` is `errors.New("cannot expand user-specific home dir")`,
`userLookupFailed` a failing `user.Current()`, and `emptyHomeDir` is
`errors.New("cannot find user-specific home dir")`. -/
inductive CfgErr where
  | invalidPathFormat
  | userLookupFailed
  | emptyHomeDir
  deriving DecidableEq, Repr

/-- Model of `home()`: returns the current user's `HomeDir`, failing when the
user lookup fails or when the reported home directory is empty. -/
def home (currentUser : Option String) : Except CfgErr String :=
  match currentUser with
  | none => Except.error CfgErr.userLookupFailed
  | some hd => if hd = "" then Except.error CfgErr.emptyHomeDir else Except.ok hd

/-- Model of `expandHomeDir`: the empty path and paths not starting with `~`
are returned unchanged; `~` followed by a character that is neither `/` nor
`\` is rejected; otherwise the home directory is resolved and
`filepath.Join`ed with the remainder of the path. -/
def expandHomeDir (path : String) (currentUser : Option String) : Except CfgErr String :=
  if path.data.length = 0 then Except.ok path
  else if path.data.head? ≠ some '~' then Except.ok path
  else if 1 < path.data.length ∧ path.data[1]? ≠ some '/' ∧ path.data[1]? ≠ some '\\' then
    Except.error CfgErr.invalidPathFormat
  else
    match home currentUser with
    | Except.error e => Except.error e
    | Except.ok dir => Except.ok (joinPath2 dir (String.mk (path.data.drop 1)))

/-- Helper for the Go pattern `p, _ := expandHomeDir(x)`: a failed expansion
leaves the string at its zero value `""`. -/
def expandOrEmpty (path : String) (currentUser : Option String) : String :=
  match expandHomeDir path currentUser with
  | Except.ok p => p
  | Except.error _ => ""

/-- Model of `WtfConfigDir()`: the expanded current configuration
directory. -/
def WtfConfigDir (currentUser : Option String) : Except CfgErr String :=
  expandHomeDir WtfConfigDirV2 currentUser

/-! ### Filesystem model -/

/-- A filesystem node: a directory, or a file with its content and
permission mode (mode in the usual octal encoding, as a `Nat`). -/
inductive Node where
  | dir (mode : Nat)
  | file (content : String) (mode : Nat)
  deriving DecidableEq, Repr

/-- Replace a node's permission mode (the effect of `os.Chmod`). -/
def Node.withMode : Node → Nat → Node
  | Node.dir _, m => Node.dir m
  | Node.file c _, m => Node.file c m

/-- Filesystem states are association lists from absolute paths (segment
lists) to nodes; lookup returns the first matching entry. -/
def findEntry : List (List String × Node) → List String → Option Node
  | [], _ => none
  | e :: rest, p => if e.1 = p then some e.2 else findEntry rest p

/-- Replace the node stored at a path (first matching entry), the effect of
writing to or chmodding an existing path. -/
def setEntry : List (List String × Node) → List String → Node → List (List String × Node)
  | [], _, _ => []
  | e :: rest, p, n => if e.1 = p then (p, n) :: rest else e :: setEntry rest p n

/-- Model of `os.RemoveAll`: delete the path and everything below it. -/
def RemoveAll (es : List (List String × Node)) (p : List String) : List (List String × Node) :=
  es.filter (fun e => !(p.isPrefixOf e.1))

/-- Entries of the subtree rooted at `src`, re-rooted at `dest` (the heart of
the recursive copy). -/
def copyEntries (src dest : List String) : List (List String × Node) → List (List String × Node)
  | [] => []
  | e :: rest =>
    if src.isPrefixOf e.1 then (dest ++ e.1.drop src.length, e.2) :: copyEntries src dest rest
    else copyEntries src dest rest

/-- Modelled from the spec: the repository's recursive directory-copy helper
`Copy(src, dest)` (its source file is not part of the reviewed material; only
its call site in `migrateOldConfig` is).  Per the spec it recursively copies
every file and subdirectory from the source tree to the destination,
preserving relative structure; the success path is modelled. -/
def Copy (fs : List (List String × Node)) (src dest : List String) : List (List String × Node) :=
  fs ++ copyEntries src dest fs

/-- Model of `os.Mkdir(p, perm)` on the success path: requires the parent to
exist as a directory, and records the new directory (Go passes
`os.ModePerm` = `0o777` at both call sites); `none` models a creation
failure, which both callers turn into process termination. -/
def mkdir (fs : List (List String × Node)) (p : List String) : Option (List (List String × Node)) :=
  match findEntry fs p.dropLast with
  | some (Node.dir _) => some ((p, Node.dir 0o777) :: fs)
  | _ => none

/-! ### The `cfg` package: provisioning, permission enforcement, migration -/

/-- Model of `CreateFile`: resolve the configuration directory (propagating
resolver errors), build `configDir ++ "/" ++ fileName`, and create the file
empty if it is absent (`os.Create` yields mode `0o666` before umask); an
existing file is left untouched.  Returns the new state and the file path. -/
def CreateFile (fs : List (List String × Node)) (currentUser : Option String)
    (fileName : String) : Except CfgErr (List (List String × Node) × String) :=
  match WtfConfigDir currentUser with
  | Except.error e => Except.error e
  | Except.ok configDir =>
    let filePath := configDir ++ "/" ++ fileName
    match findEntry fs (pathSegs filePath) with
    | some _ => Except.ok (fs, filePath)
    | none => Except.ok ((pathSegs filePath, Node.file "" 0o666) :: fs, filePath)

/-- The resolved segments of the default config file
(`~/.config/wtf/config.yml`), as used by `chmodConfigFile`. -/
def cfgFileSegs (currentUser : Option String) : List String :=
  pathSegs (expandOrEmpty (WtfConfigDirV2 ++ WtfConfigFile) currentUser)

/-- The resolved segments of the default secrets file
(`~/.config/wtf/secrets.yml`), as used by `chmodSecretsFile`. -/
def secretsFileSegs (currentUser : Option String) : List String :=
  pathSegs (expandOrEmpty (WtfConfigDirV2 ++ WtfSecretsFile) currentUser)

/-- Model of `chmodConfigFile`: stat the resolved config file; if it does not
exist, return unchanged; otherwise chmod it to `0o600`, returning unchanged
when the chmod fails (`chmodOk = false`).  The function has no error result:
every failure is swallowed. -/
def chmodConfigFile (fs : List (List String × Node)) (currentUser : Option String)
    (chmodOk : Bool) : List (List String × Node) :=
  match findEntry fs (cfgFileSegs currentUser) with
  | none => fs
  | some n => if chmodOk then setEntry fs (cfgFileSegs currentUser) (n.withMode 0o600) else fs

/-- Model of `chmodSecretsFile`: as `chmodConfigFile`, for the secrets
file. -/
def chmodSecretsFile (fs : List (List String × Node)) (currentUser : Option String)
    (chmodOk : Bool) : List (List String × Node) :=
  match findEntry fs (secretsFileSegs currentUser) with
  | none => fs
  | some n => if chmodOk then setEntry fs (secretsFileSegs currentUser) (n.withMode 0o600) else fs

/-- Model of `createXdgConfigDir`: stat the expanded `~/.config/`; if absent,
`os.Mkdir` it (a creation failure terminates the process, modelled by
`none`). -/
def createXdgConfigDir (fs : List (List String × Node)) (currentUser : Option String) :
    Option (List (List String × Node)) :=
  let xdgConfigDir := expandOrEmpty XdgConfigDir currentUser
  match findEntry fs (pathSegs xdgConfigDir) with
  | some _ => some fs
  | none => mkdir fs (pathSegs xdgConfigDir)

/-- Model of `createWtfConfigDir`: stat the expanded `~/.config/wtf/`; if
absent, `os.Mkdir` it (a creation failure terminates the process). -/
def createWtfConfigDir (fs : List (List String × Node)) (currentUser : Option String) :
    Option (List (List String × Node)) :=
  let wtfConfigDir := match WtfConfigDir currentUser with
    | Except.ok p => p
    | Except.error _ => ""
  match findEntry fs (pathSegs wtfConfigDir) with
  | some _ => some fs
  | none => mkdir fs (pathSegs wtfConfigDir)

/-- Model of `createWtfConfigFile`: `CreateFile` the default config file (an
error terminates the process, modelled by `none`); if the file's size is 0,
write the default template into it (`ioutil.WriteFile` keeps the mode of an
existing file). -/
def createWtfConfigFile (fs : List (List String × Node)) (currentUser : Option String)
    (defaultConfigFile : String) : Option (List (List String × Node)) :=
  match CreateFile fs currentUser WtfConfigFile with
  | Except.error _ => none
  | Except.ok (fs1, filePath) =>
    match findEntry fs1 (pathSegs filePath) with
    | some (Node.file c m) =>
      if c = "" then some (setEntry fs1 (pathSegs filePath) (Node.file defaultConfigFile m))
      else some fs1
    | _ => some fs1

/-- Model of `createWtfSecretsFile`: same shape as `createWtfConfigFile`, for
the secrets file and its template.  Note: nothing in the reviewed source ever
calls this function. -/
def createWtfSecretsFile (fs : List (List String × Node)) (currentUser : Option String)
    (defaultSecretsFile : String) : Option (List (List String × Node)) :=
  match CreateFile fs currentUser WtfSecretsFile with
  | Except.error _ => none
  | Except.ok (fs1, filePath) =>
    match findEntry fs1 (pathSegs filePath) with
    | some (Node.file c m) =>
      if c = "" then some (setEntry fs1 (pathSegs filePath) (Node.file defaultSecretsFile m))
      else some fs1
    | _ => some fs1

/-- Resolved segments of the legacy configuration directory `~/.wtf/`, as
computed at the top of `migrateOldConfig`. -/
def wtfV1Segs (currentUser : Option String) : List String :=
  pathSegs (expandOrEmpty WtfConfigDirV1 currentUser)

/-- Resolved segments of the current configuration directory
`~/.config/wtf/`, as computed at the top of `migrateOldConfig`. -/
def wtfV2Segs (currentUser : Option String) : List String :=
  pathSegs (expandOrEmpty WtfConfigDirV2 currentUser)

/-- Model of `migrateOldConfig`: no-op when the legacy directory is absent or
the new directory already exists; otherwise `Copy` the legacy tree to the new
location and, if the destination now exists, `os.RemoveAll` the legacy tree
(a removal failure is only logged; the success path is modelled). -/
def migrateOldConfig (fs : List (List String × Node)) (currentUser : Option String) :
    List (List String × Node) :=
  let srcDir := wtfV1Segs currentUser
  let destDir := wtfV2Segs currentUser
  if (findEntry fs srcDir).isNone then fs
  else if (findEntry fs destDir).isSome then fs
  else
    let fs2 := Copy fs srcDir destDir
    if (findEntry fs2 destDir).isSome then RemoveAll fs2 srcDir else fs2

/-- Model of `Initialize`: migrate the legacy layout (only without a custom
config source), always provision the base and configuration directories, and
— only without a custom source — provision the default config file and run
the permission enforcers on the config and secrets files.  `none` models the
process-terminating failure paths; `cfgChmodOk` / `secChmodOk` inject the
outcome of the two `os.Chmod` calls. -/
def Initialize (fs : List (List String × Node)) (currentUser : Option String)
    (hasCustom : Bool) (defaultConfigFile : String) (cfgChmodOk secChmodOk : Bool) :
    Option (List (List String × Node)) :=
  let fs0 := if hasCustom = false then migrateOldConfig fs currentUser else fs
  match createXdgConfigDir fs0 currentUser with
  | none => none
  | some fs1 =>
    match createWtfConfigDir fs1 currentUser with
    | none => none
    | some fs2 =>
      if hasCustom = false then
        match createWtfConfigFile fs2 currentUser defaultConfigFile with
        | none => none
        | some fs3 =>
          some (chmodSecretsFile (chmodConfigFile fs3 currentUser cfgChmodOk)
            currentUser secChmodOk)
      else
        some fs2

/-! ### The firewall module (`modules/security/firewall.go`) -/

/-- Model of `strings.Contains(hay, needle)` on character lists. -/
def containsSub (needle : List Char) : List Char → Bool
  | [] => needle.isEmpty
  | c :: rest => needle.isPrefixOf (c :: rest) || containsSub needle rest

/-- Model of `statusLabel`: `"on"` when the probed output mentions
`enabled`, otherwise `"off"`. -/
def statusLabel (str : String) : String :=
  if containsSub "enabled".data str.data then "on" else "off"

/-- Model of `firewallStealthStateLinux`: the fixed not-applicable label. -/
def firewallStealthStateLinux : String := "[white]N/A[white]"

/-- Model of `firewallStealthStateWindows`: the fixed not-applicable
label. -/
def firewallStealthStateWindows : String := "[white]N/A[white]"

/-- Model of `firewallStealthStateMacOS`: runs the macOS firewall command and
labels its output; the command output is a parameter. -/
def firewallStealthStateMacOS (cmdOutput : String) : String :=
  statusLabel cmdOutput

/-- Model of `FirewallStealthState`: dispatch on `runtime.GOOS` (a
parameter), returning the empty string for any unrecognized platform. -/
def FirewallStealthState (goos : String) (macCmdOutput : String) : String :=
  if goos = "linux" then firewallStealthStateLinux
  else if goos = "darwin" then firewallStealthStateMacOS macCmdOutput
  else if goos = "windows" then firewallStealthStateWindows
  else ""

end Wtf

namespace Wtf

/-! ### Supporting lemmas for the Path Resolver -/

theorem splitOnSlash_ne_nil (cs : List Char) : splitOnSlash cs ≠ [] := by
  match cs with
  | [] => simp [splitOnSlash]
  | c :: rest =>
    rw [splitOnSlash]
    by_cases hc : c = '/'
    · simp [hc]
    · simp only [hc, if_false]
      cases h : splitOnSlash rest <;> simp

theorem splitOnSlash_append_slash (cs : List Char) :
    splitOnSlash (cs ++ ['/']) = splitOnSlash cs ++ [[]] := by
  induction cs with
  | nil => rfl
  | cons c rest ih =>
    rw [List.cons_append, splitOnSlash, splitOnSlash]
    by_cases hc : c = '/'
    · simp [hc, ih]
    · simp only [hc, if_false, ih]
      cases h : splitOnSlash rest with
      | nil => exact absurd h (splitOnSlash_ne_nil rest)
      | cons s ss => simp

theorem cleanStep_empty_seg (rooted : Bool) (stack : List (List Char)) :
    cleanStep rooted stack [] = stack := by
  simp [cleanStep]

/-- Appending a trailing separator to a non-empty path does not change its
cleaned form (the extra empty segment is skipped by `cleanStep`). -/
theorem cleanPathL_append_slash (cs : List Char) (h : cs ≠ []) :
    cleanPathL (cs ++ ['/']) = cleanPathL cs := by
  match cs with
  | [] => exact absurd rfl h
  | c :: rest =>
    rw [cleanPathL]
    rw [show (c :: rest) ++ ['/'] = c :: (rest ++ ['/']) from rfl]
    rw [cleanPathL]
    have hsplit : splitOnSlash (c :: (rest ++ ['/'])) =
        splitOnSlash (c :: rest) ++ [[]] := by
      rw [show c :: (rest ++ ['/']) = (c :: rest) ++ ['/'] from rfl]
      exact splitOnSlash_append_slash (c :: rest)
    rw [hsplit, List.foldl_append]
    simp only [List.foldl, cleanStep_empty_seg]

end Wtf

namespace Wtf

/-! ### Claims C6, C7, C10, C5 — the Path Resolver -/

/-- C6: for every raw path that does not begin with the home-shorthand
marker `~` (including the empty path), `expandHomeDir` returns the path
unchanged and without error. -/
theorem expandHomeDir_id_of_no_marker (path : String) (currentUser : Option String)
    (h : path.data.head? ≠ some '~') :
    expandHomeDir path currentUser = Except.ok path := by
  rw [expandHomeDir]
  by_cases h0 : path.data.length = 0
  · simp [h0]
  · simp [h0, h]

/-- Witness for C6 at the concrete paths `/etc/passwd` and `""`. -/
theorem expandHomeDir_id_of_no_marker_witness :
    expandHomeDir "/etc/passwd" (some "/home/alice") = Except.ok "/etc/passwd" ∧
    expandHomeDir "" none = Except.ok "" :=
  ⟨expandHomeDir_id_of_no_marker "/etc/passwd" (some "/home/alice") (by decide),
   expandHomeDir_id_of_no_marker "" none (by decide)⟩

/-- C7: a raw path beginning with `~` followed by a character that is neither
`/` nor `\` is rejected with the invalid-path-format error. -/
theorem expandHomeDir_invalid_marker_use (path : String) (currentUser : Option String)
    (c : Char) (rest : List Char)
    (hdata : path.data = '~' :: c :: rest) (h1 : c ≠ '/') (h2 : c ≠ '\\') :
    expandHomeDir path currentUser = Except.error CfgErr.invalidPathFormat := by
  rw [expandHomeDir, hdata]
  simp [h1, h2]

/-- Witness for C7 at the concrete path `~x`. -/
theorem expandHomeDir_invalid_marker_use_witness :
    expandHomeDir "~x" (some "/home/alice") = Except.error CfgErr.invalidPathFormat :=
  expandHomeDir_invalid_marker_use "~x" (some "/home/alice") 'x' []
    (by decide) (by decide) (by decide)

/-- C10: the raw path consisting of exactly `~` is not rejected: whenever the
user lookup reports a non-empty home directory, the resolver succeeds and
returns `filepath.Join(home, "") = Clean(home)` — the home directory itself
whenever the reported home path is already in cleaned form. -/
theorem expandHomeDir_bare_marker (h : String) (hne : h ≠ "") (hclean : cleanPath h = h) :
    expandHomeDir "~" (some h) = Except.ok h := by
  have hdata : ("~" : String).data = ['~'] := rfl
  rw [expandHomeDir, hdata]
  simp only [List.length_cons, List.length_nil, List.head?]
  have hdne : h.data ≠ [] := by
    intro hd
    exact hne (by cases h with | mk d => cases hd; rfl)
  have hjoin : joinPath2 h "" = cleanPath h := by
    rw [joinPath2]
    simp only [hne, ne_eq, not_false_iff, if_true]
    have : (h ++ "/" ++ "").data = h.data ++ ['/'] := by
      rw [String.data_append, String.data_append]
      show h.data ++ ['/'] ++ [] = h.data ++ ['/']
      exact List.append_nil _
    rw [cleanPath, this, cleanPathL_append_slash h.data hdne, ← cleanPath]
  have hmk : String.mk (List.drop 1 ['~']) = "" := rfl
  simp only [hmk]
  rw [home]
  simp only [hne, if_false]
  simp [hjoin, hclean]

/-- Witness for C10 at the concrete home directory `/home/alice`. -/
theorem expandHomeDir_bare_marker_witness :
    expandHomeDir "~" (some "/home/alice") = Except.ok "/home/alice" :=
  expandHomeDir_bare_marker "/home/alice" (by decide) (by decide)

/-- C5 counterexample: resolving `~/.config/wtf/` with home `/home/alice`
does not yield `/home/alice/.config/wtf/` — `filepath.Join` runs
`filepath.Clean`, which removes the trailing separator. -/
theorem expandHomeDir_scenario_counterexample :
    expandHomeDir "~/.config/wtf/" (some "/home/alice") ≠
      Except.ok "/home/alice/.config/wtf/" := by
  intro hcontra
  rw [show expandHomeDir "~/.config/wtf/" (some "/home/alice") =
      Except.ok "/home/alice/.config/wtf" from rfl] at hcontra
  have heq : ("/home/alice/.config/wtf" : String) = "/home/alice/.config/wtf/" :=
    Except.ok.inj hcontra
  exact absurd heq (by decide)

/-- C5 amended: resolving the raw path `~/.config/wtf/` with home directory
`/home/alice` yields exactly `/home/alice/.config/wtf`, the trailing
separator being removed by the path cleaning inside `filepath.Join`. -/
theorem expandHomeDir_scenario :
    expandHomeDir "~/.config/wtf/" (some "/home/alice") =
      Except.ok "/home/alice/.config/wtf" := rfl

end Wtf

namespace Wtf

/-! ### Supporting lemmas for the filesystem model -/

theorem isPrefixOf_append_drop : ∀ (src p : List String),
    src.isPrefixOf p = true → src ++ p.drop src.length = p
  | [], p, _ => by simp
  | a :: s, [], h => by simp [List.isPrefixOf] at h
  | a :: s, b :: p, h => by
    rw [List.isPrefixOf] at h
    rw [Bool.and_eq_true, beq_iff_eq] at h
    obtain ⟨rfl, h2⟩ := h
    rw [List.length_cons, List.drop_succ_cons, List.cons_append]
    rw [isPrefixOf_append_drop s p h2]

theorem isPrefixOf_append_self : ∀ (src t : List String), src.isPrefixOf (src ++ t) = true
  | [], t => by simp [List.isPrefixOf]
  | a :: s, t => by
    rw [List.cons_append, List.isPrefixOf, Bool.and_eq_true, beq_iff_eq]
    exact ⟨rfl, isPrefixOf_append_self s t⟩

theorem isPrefixOf_self (p : List String) : p.isPrefixOf p = true := by
  have h := isPrefixOf_append_self p []
  rwa [List.append_nil] at h

theorem isPrefixOf_append_cases : ∀ (u v : List String) (w : List String),
    u.isPrefixOf (v ++ w) = true → u.isPrefixOf v = true ∨ v.isPrefixOf u = true
  | u, [], w, _ => Or.inr (by simp [List.isPrefixOf])
  | [], v, w, _ => Or.inl (by simp [List.isPrefixOf])
  | a :: u, b :: v, w, h => by
    rw [List.cons_append, List.isPrefixOf, Bool.and_eq_true, beq_iff_eq] at h
    obtain ⟨rfl, h2⟩ := h
    rcases isPrefixOf_append_cases u v w h2 with h3 | h3
    · exact Or.inl (by rw [List.isPrefixOf, Bool.and_eq_true, beq_iff_eq]; exact ⟨rfl, h3⟩)
    · exact Or.inr (by rw [List.isPrefixOf, Bool.and_eq_true, beq_iff_eq]; exact ⟨rfl, h3⟩)

theorem not_isPrefixOf_append (src dest rel : List String)
    (h1 : src.isPrefixOf dest = false) (h2 : dest.isPrefixOf src = false) :
    src.isPrefixOf (dest ++ rel) = false := by
  cases hc : src.isPrefixOf (dest ++ rel) with
  | false => rfl
  | true =>
    rcases isPrefixOf_append_cases src dest rel hc with h | h
    · rw [h] at h1; exact absurd h1 (by simp)
    · rw [h] at h2; exact absurd h2 (by simp)

theorem findEntry_append_none (es₁ es₂ : List (List String × Node)) (p : List String)
    (h : findEntry es₁ p = none) : findEntry (es₁ ++ es₂) p = findEntry es₂ p := by
  induction es₁ with
  | nil => simp
  | cons e rest ih =>
    rw [findEntry] at h
    by_cases hq : e.1 = p
    · simp [hq] at h
    · rw [if_neg hq] at h
      rw [List.cons_append, findEntry, if_neg hq]
      exact ih h

theorem findEntry_append_some (es₁ es₂ : List (List String × Node)) (p : List String)
    (n : Node) (h : findEntry es₁ p = some n) : findEntry (es₁ ++ es₂) p = some n := by
  induction es₁ with
  | nil => simp [findEntry] at h
  | cons e rest ih =>
    rw [findEntry] at h
    rw [List.cons_append, findEntry]
    by_cases hq : e.1 = p
    · rwa [if_pos hq] at h ⊢
    · rw [if_neg hq] at h ⊢
      exact ih h

theorem findEntry_removeAll_inside (es : List (List String × Node)) (src p : List String)
    (h : src.isPrefixOf p = true) : findEntry (RemoveAll es src) p = none := by
  induction es with
  | nil => rfl
  | cons e rest ih =>
    rw [RemoveAll, List.filter] at *
    cases hk : !(src.isPrefixOf e.1) with
    | false => exact ih
    | true =>
      rw [findEntry]
      have hne : e.1 ≠ p := by
        intro hep
        rw [hep, h] at hk
        simp at hk
      rw [if_neg hne]
      exact ih

theorem findEntry_removeAll_outside (es : List (List String × Node)) (src p : List String)
    (h : src.isPrefixOf p = false) : findEntry (RemoveAll es src) p = findEntry es p := by
  induction es with
  | nil => rfl
  | cons e rest ih =>
    rw [RemoveAll, List.filter] at *
    cases hk : !(src.isPrefixOf e.1) with
    | false =>
      have hne : e.1 ≠ p := by
        intro hep
        rw [hep, h] at hk
        simp at hk
      rw [findEntry, if_neg hne]
      exact ih
    | true =>
      rw [findEntry, findEntry]
      by_cases hq : e.1 = p
      · rw [if_pos hq, if_pos hq]
      · rw [if_neg hq, if_neg hq]
        exact ih

theorem findEntry_copyEntries (es : List (List String × Node)) (src dest rel : List String) :
    findEntry (copyEntries src dest es) (dest ++ rel) = findEntry es (src ++ rel) := by
  induction es with
  | nil => rfl
  | cons e rest ih =>
    rw [copyEntries]
    cases hc : src.isPrefixOf e.1 with
    | true =>
      rw [if_pos rfl] at *
      have ht : src ++ e.1.drop src.length = e.1 := isPrefixOf_append_drop src e.1 hc
      rw [findEntry, findEntry]
      by_cases hcond : e.1 = src ++ rel
      · have hdrop : e.1.drop src.length = rel := by
          rw [hcond, List.drop_left]
        rw [if_pos (by rw [hdrop]), if_pos hcond]
      · have hne2 : dest ++ e.1.drop src.length ≠ dest ++ rel := by
          intro hed
          have := List.append_cancel_left hed
          exact hcond (by rw [← ht, this])
        rw [if_neg hne2, if_neg hcond]
        exact ih
    | false =>
      rw [if_neg Bool.false_ne_true]
      rw [findEntry]
      have hne : e.1 ≠ src ++ rel := by
        intro hep
        rw [hep, isPrefixOf_append_self src rel] at hc
        exact Bool.true_eq_false.mp hc
      rw [if_neg hne]
      exact ih

theorem findEntry_copyEntries_outside (es : List (List String × Node))
    (src dest q : List String) (h : dest.isPrefixOf q = false) :
    findEntry (copyEntries src dest es) q = none := by
  induction es with
  | nil => rfl
  | cons e rest ih =>
    rw [copyEntries]
    cases hc : src.isPrefixOf e.1 with
    | true =>
      rw [if_pos rfl, findEntry]
      have hne : dest ++ e.1.drop src.length ≠ q := by
        intro hed
        rw [← hed, isPrefixOf_append_self dest _] at h
        exact Bool.true_eq_false.mp h
      rw [if_neg hne]
      exact ih
    | false =>
      rw [if_neg Bool.false_ne_true]
      exact ih

end Wtf

namespace Wtf

/-! ### Claims C2, C3 — the Legacy Migrator -/

/-- C2: from any starting state in which the legacy directory exists (with
arbitrary populated contents) and the new configuration directory is absent
(no entry at or below it — in a well-formed filesystem the absence of the
directory entails the absence of its subtree), migration moves every entry of
the legacy tree to the new root at the identical relative path with identical
node (content and mode), and nothing remains at or below the legacy root.
The two `isPrefixOf ... = false` hypotheses state that the two resolved
directories are not nested in one another, which holds for every actual home
directory (see the witness). -/
theorem migrateOldConfig_migrates (fs : List (List String × Node)) (currentUser : Option String)
    (n₀ : Node)
    (hsrc : findEntry fs (wtfV1Segs currentUser) = some n₀)
    (hdest : ∀ p, (wtfV2Segs currentUser).isPrefixOf p = true → findEntry fs p = none)
    (hsep1 : (wtfV1Segs currentUser).isPrefixOf (wtfV2Segs currentUser) = false)
    (hsep2 : (wtfV2Segs currentUser).isPrefixOf (wtfV1Segs currentUser) = false) :
    (∀ rel n, findEntry fs (wtfV1Segs currentUser ++ rel) = some n →
        findEntry (migrateOldConfig fs currentUser) (wtfV2Segs currentUser ++ rel) = some n)
    ∧ (∀ p, (wtfV1Segs currentUser).isPrefixOf p = true →
        findEntry (migrateOldConfig fs currentUser) p = none) := by
  have hdest0 : findEntry fs (wtfV2Segs currentUser) = none :=
    hdest _ (isPrefixOf_self _)
  have hcopy : ∀ rel, findEntry (Copy fs (wtfV1Segs currentUser) (wtfV2Segs currentUser))
      (wtfV2Segs currentUser ++ rel) = findEntry fs (wtfV1Segs currentUser ++ rel) := by
    intro rel
    rw [Copy]
    rw [findEntry_append_none fs _ _ (hdest _ (isPrefixOf_append_self _ rel))]
    exact findEntry_copyEntries fs _ _ rel
  have hfs2dest : findEntry (Copy fs (wtfV1Segs currentUser) (wtfV2Segs currentUser))
      (wtfV2Segs currentUser) = some n₀ := by
    have h0 := hcopy []
    rw [List.append_nil, List.append_nil] at h0
    rw [h0]
    exact hsrc
  have hre : migrateOldConfig fs currentUser =
      RemoveAll (Copy fs (wtfV1Segs currentUser) (wtfV2Segs currentUser))
        (wtfV1Segs currentUser) := by
    simp only [migrateOldConfig]
    rw [hsrc, hdest0, hfs2dest]
    simp
  constructor
  · intro rel n hn
    rw [hre]
    rw [findEntry_removeAll_outside _ _ _
      (not_isPrefixOf_append _ _ rel hsep1 hsep2)]
    rw [hcopy rel]
    exact hn
  · intro p hp
    rw [hre]
    exact findEntry_removeAll_inside _ _ _ hp

/-- Witness for C2: a legacy directory `/home/alice/.wtf` holding
`config.yml` (content `a: 1`) migrates to `/home/alice/.config/wtf`, and the
legacy root is gone afterwards. -/
theorem migrateOldConfig_migrates_witness :
    findEntry
      (migrateOldConfig
        [(["home", "alice", ".wtf"], Node.dir 0o777),
         (["home", "alice", ".wtf", "config.yml"], Node.file "a: 1" 0o666)]
        (some "/home/alice"))
      (wtfV2Segs (some "/home/alice") ++ ["config.yml"]) = some (Node.file "a: 1" 0o666)
    ∧ findEntry
      (migrateOldConfig
        [(["home", "alice", ".wtf"], Node.dir 0o777),
         (["home", "alice", ".wtf", "config.yml"], Node.file "a: 1" 0o666)]
        (some "/home/alice"))
      (wtfV1Segs (some "/home/alice")) = none := by
  have h := migrateOldConfig_migrates
    [(["home", "alice", ".wtf"], Node.dir 0o777),
     (["home", "alice", ".wtf", "config.yml"], Node.file "a: 1" 0o666)]
    (some "/home/alice") (Node.dir 0o777)
    (by decide)
    (by
      intro p hp
      have k1 : ¬ (["home", "alice", ".wtf"] : List String) = p := by
        rintro rfl
        exact absurd hp (by decide)
      have k2 : ¬ (["home", "alice", ".wtf", "config.yml"] : List String) = p := by
        rintro rfl
        exact absurd hp (by decide)
      simp only [findEntry]
      rw [if_neg k1, if_neg k2])
    (by decide) (by decide)
  exact ⟨h.1 ["config.yml"] (Node.file "a: 1" 0o666) (by decide),
         h.2 (wtfV1Segs (some "/home/alice")) (by decide)⟩

/-- C3: when both the legacy and the new configuration directory exist,
migration returns the filesystem exactly as it was — no copy, no
deletion. -/
theorem migrateOldConfig_skip (fs : List (List String × Node)) (currentUser : Option String)
    (n₁ n₂ : Node)
    (h1 : findEntry fs (wtfV1Segs currentUser) = some n₁)
    (h2 : findEntry fs (wtfV2Segs currentUser) = some n₂) :
    migrateOldConfig fs currentUser = fs := by
  simp only [migrateOldConfig]
  rw [h1, h2]
  simp

/-- Witness for C3 with both directories present under `/home/alice`. -/
theorem migrateOldConfig_skip_witness :
    migrateOldConfig
      [(["home", "alice", ".wtf"], Node.dir 0o777),
       (["home", "alice", ".config", "wtf"], Node.dir 0o777)]
      (some "/home/alice") =
    [(["home", "alice", ".wtf"], Node.dir 0o777),
     (["home", "alice", ".config", "wtf"], Node.dir 0o777)] :=
  migrateOldConfig_skip _ _ (Node.dir 0o777) (Node.dir 0o777) (by decide) (by decide)

/-! ### Claim C4 — the File Provisioner -/

/-- C4: `CreateFile` is idempotent — a successful call followed by a second
call for the same name returns the same state and the same path, and a call
never removes or modifies any entry that already existed (in particular it
never truncates an existing non-empty file). -/
theorem CreateFile_idempotent (fs : List (List String × Node)) (currentUser : Option String)
    (fileName : String) (fs₁ : List (List String × Node)) (p₁ : String)
    (h : CreateFile fs currentUser fileName = Except.ok (fs₁, p₁)) :
    CreateFile fs₁ currentUser fileName = Except.ok (fs₁, p₁)
    ∧ ∀ q n, findEntry fs q = some n → findEntry fs₁ q = some n := by
  rw [CreateFile] at h ⊢
  cases hcd : WtfConfigDir currentUser with
  | error e =>
    rw [hcd] at h
    exact absurd h (by simp)
  | ok configDir =>
    rw [hcd] at h
    dsimp only at h ⊢
    cases hfind : findEntry fs (pathSegs (configDir ++ "/" ++ fileName)) with
    | some n =>
      simp only [hfind] at h
      injection h with h'
      injection h' with hfs hp
      subst hfs
      subst hp
      constructor
      · rw [hfind]
      · exact fun q m hq => hq
    | none =>
      simp only [hfind] at h
      injection h with h'
      injection h' with hfs hp
      subst hfs
      subst hp
      constructor
      · have hk : findEntry
            ((pathSegs (configDir ++ "/" ++ fileName), Node.file "" 0o666) :: fs)
            (pathSegs (configDir ++ "/" ++ fileName)) = some (Node.file "" 0o666) := by
          rw [findEntry, if_pos rfl]
        rw [hk]
      · intro q m hq
        rw [findEntry]
        by_cases hkq : pathSegs (configDir ++ "/" ++ fileName) = q
        · rw [← hkq, hfind] at hq
          exact absurd hq (by simp)
        · rw [if_neg hkq]
          exact hq

/-- Witness for C4: creating `config.yml` in an empty filesystem and calling
`CreateFile` again returns the same state and path. -/
theorem CreateFile_idempotent_witness :
    CreateFile [(["home", "alice", ".config", "wtf", "config.yml"], Node.file "" 0o666)]
      (some "/home/alice") "config.yml" =
      Except.ok ([(["home", "alice", ".config", "wtf", "config.yml"], Node.file "" 0o666)],
        "/home/alice/.config/wtf/config.yml") :=
  (CreateFile_idempotent [] (some "/home/alice") "config.yml"
    [(["home", "alice", ".config", "wtf", "config.yml"], Node.file "" 0o666)]
    "/home/alice/.config/wtf/config.yml" (by rfl)).1

/-! ### Claim C8 — the Permission Enforcer -/

/-- C8: both permission enforcers are total functions with no error result;
applied to a state in which the target file does not exist they return the
state unchanged (no file is created), and when the mode change fails
(`chmodOk = false`) they also return the state unchanged — failures are
swallowed, never propagated. -/
theorem chmod_best_effort (fs : List (List String × Node)) (currentUser : Option String) :
    (findEntry fs (cfgFileSegs currentUser) = none →
      ∀ chmodOk, chmodConfigFile fs currentUser chmodOk = fs)
    ∧ (chmodConfigFile fs currentUser false = fs)
    ∧ (findEntry fs (secretsFileSegs currentUser) = none →
      ∀ chmodOk, chmodSecretsFile fs currentUser chmodOk = fs)
    ∧ (chmodSecretsFile fs currentUser false = fs) := by
  refine ⟨fun h ok => ?_, ?_, fun h ok => ?_, ?_⟩
  · rw [chmodConfigFile, h]
  · rw [chmodConfigFile]
    cases hf : findEntry fs (cfgFileSegs currentUser) with
    | none => rfl
    | some n => simp
  · rw [chmodSecretsFile, h]
  · rw [chmodSecretsFile]
    cases hf : findEntry fs (secretsFileSegs currentUser) with
    | none => rfl
    | some n => simp

/-- Witness for C8: enforcing on an empty filesystem (file absent) leaves it
empty, and a failing chmod on an existing secrets file leaves the state
unchanged. -/
theorem chmod_best_effort_witness :
    chmodConfigFile [] (some "/home/alice") true = []
    ∧ chmodSecretsFile
        [(["home", "alice", ".config", "wtf", "secrets.yml"], Node.file "k: v" 0o666)]
        (some "/home/alice") false =
        [(["home", "alice", ".config", "wtf", "secrets.yml"], Node.file "k: v" 0o666)] :=
  ⟨(chmod_best_effort [] (some "/home/alice")).1 (by rfl) true,
   (chmod_best_effort
      [(["home", "alice", ".config", "wtf", "secrets.yml"], Node.file "k: v" 0o666)]
      (some "/home/alice")).2.2.2⟩

/-! ### Claim C9 — the stealth-mode query -/

/-- C9 counterexample: on an unrecognized platform (e.g. `freebsd`), which
also lacks a stealth-mode concept, the query returns the empty string — an
empty result, not the explicit not-applicable label. -/
theorem FirewallStealthState_counterexample :
    FirewallStealthState "freebsd" "enabled" = ""
    ∧ "freebsd" ≠ "darwin"
    ∧ FirewallStealthState "freebsd" "enabled" ≠ "[white]N/A[white]" :=
  ⟨rfl, by decide, by decide⟩

/-- C9 amended: on the supported platforms lacking a stealth-mode concept
(`linux` and `windows`), the query returns the explicit, non-empty
not-applicable label `[white]N/A[white]`; unrecognized platforms fall through
to the empty string. -/
theorem FirewallStealthState_na (goos probe : String)
    (h : goos = "linux" ∨ goos = "windows") :
    FirewallStealthState goos probe = "[white]N/A[white]"
    ∧ FirewallStealthState goos probe ≠ "" := by
  have e : FirewallStealthState goos probe = "[white]N/A[white]" := by
    rcases h with rfl | rfl
    · rfl
    · rfl
  refine ⟨e, ?_⟩
  rw [e]
  decide

/-- Witness for C9 (amended) on `linux`. -/
theorem FirewallStealthState_na_witness :
    FirewallStealthState "linux" "whatever" = "[white]N/A[white]"
    ∧ FirewallStealthState "linux" "whatever" ≠ "" :=
  FirewallStealthState_na "linux" "whatever" (Or.inl rfl)

/-! ### Claim C1 — `Initialize` and the secrets file -/

/-- C1: evaluating `Initialize` with `hasCustom = false` in a fresh home
directory `/home/alice` (no prior configuration): bootstrap succeeds, the
default config file is provisioned with the template content and chmodded to
`0o600`, but the default secrets file is never created — `Initialize` never
calls `createWtfSecretsFile`, so only the config file is provisioned, contrary
to the claim that both files are. -/
theorem Initialize_omits_secrets_file :
    ( Initialize
        [([], Node.dir 0o777), (["home"], Node.dir 0o777), (["home", "alice"], Node.dir 0o777)]
        (some "/home/alice") false "default config template" true true).map
      (fun fs => (findEntry fs (cfgFileSegs (some "/home/alice")),
                  findEntry fs (secretsFileSegs (some "/home/alice")))) =
      some (some (Node.file "default config template" 0o600), none) := by decide

end Wtf
